import Mathlib

/-!
Shallow embedding of the `InputAddress` component
(`packages/react-components/src/InputAddress/index.tsx`) and its helper
functions: option deduplication, bucket filtering, active-value resolution,
last-value persistence, selection-change reporting and search.

Conventions of the embedding:
* JS `null`/`undefined` string values are `Option String` (`none`);
* JS exceptions are `Except Unit`;
* the external address canonicaliser `toAddress` (from `../util`), the
  JS substring test `String.prototype.includes`, the keyring registry
  (`keyring.saveRecent`, `createOption`'s name lookup) and `createItem`'s
  presentation decoration are opaque collaborators, so they enter as
  function parameters of the embedded operations.
-/

namespace InputAddressSpec

/-- The option record handed to the dropdown: a unique `key`, a `value`
holding the address (`none` for section-header rows) and a display `name`. -/
structure Opt where
  key : String
  value : Option String
  name : String
deriving Repr, DecidableEq

/-- JS truthiness of a `string | null | undefined` value: `none` models
`null`/`undefined`; the empty string is falsy. -/
def jsTruthyStr : Option String → Bool
  | none => false
  | some s => s != ""

/-- Behaviour of the opaque `toAddress` canonicaliser at one input: it may
throw (`.error`), return a falsy result (`.ok none` for `undefined`,
`.ok (some "")` for an empty string) or return an address string. -/
abbrev ToAddr := Option String → Except Unit (Option String)

/-- `transformToAddress` (source lines 61-69):
`try { return toAddress(value) || null } catch ... ; return null`. -/
def transformToAddress (toAddr : ToAddr) (value : Option String) : Option String :=
  match toAddr value with
  | .error _ => none
  | .ok none => none
  | .ok (some s) => if s = "" then none else some s

/-- `transformToAccountId` (source lines 71-81): empty input short-circuits
to `null`, otherwise the `transformToAddress` result is returned with a
redundant falsiness check. -/
def transformToAccountId (toAddr : ToAddr) (value : String) : Option String :=
  if value = "" then none
  else
    match transformToAddress toAddr (some value) with
    | none => none
    | some a => some a

/-- One step of the `reduce` inside `dedupe` (source lines 121-134).
`io.1` is the index of the element in the original array; the accumulator is
scanned with its own indices (`eindex !== index && key === o.key`). -/
def dedupeStep (all : List Opt) (io : Nat × Opt) : List Opt :=
  if (all.enum).any (fun ie => ie.1 != io.1 && ie.2.key == io.2.key) then all
  else all ++ [io.2]

/-- `dedupe` (source lines 121-134): drop every option whose key already
occurred earlier in the sequence. -/
def dedupe (options : List Opt) : List Opt :=
  (options.enum).foldl dedupeStep []

/-- Proof-side normal form of `dedupe`: first-occurrence deduplication with
an explicit list of already-seen keys. -/
def dedupeFrom (seen : List String) : List Opt → List Opt
  | [] => []
  | o :: rest =>
    if seen.any (fun s => s == o.key) then dedupeFrom seen rest
    else o :: dedupeFrom (o.key :: seen) rest

/-! ## The persisted preference store (`store.get` / `store.set`, lines 104-119) -/

/-- The JS value found in local storage under `options:InputAddress`,
grouped by how `readOptions` treats it:
`absent` is a missing entry (`store.get` gives `undefined`),
`falsyVal` any other falsy stored value (`null`, `false`, `0`, `""`),
`objWithDefaults d` a stored `defaults` object holding the map `d`, and
`mal` a truthy stored value with no `defaults` field (on such a value
`options.defaults` is `undefined`, so indexing or assigning
`options.defaults[type]` throws a `TypeError`). -/
inductive Stored where
  | absent
  | falsyVal
  | objWithDefaults (d : List (String × String))
  | mal
deriving Repr, DecidableEq

/-- Result of `readOptions` (lines 104-106): the options object itself,
either carrying a usable `defaults` map or lacking one. -/
inductive OptionsObj where
  | withDefaults (d : List (String × String))
  | noDefaults
deriving Repr, DecidableEq

/-- `readOptions` (lines 104-106): `store.get(STORAGE_KEY) || { defaults: {} }`;
only falsy stored values fall back to the empty-defaults object. -/
def readOptions : Stored → OptionsObj
  | .absent => .withDefaults []
  | .falsyVal => .withDefaults []
  | .objWithDefaults d => .withDefaults d
  | .mal => .noDefaults

/-- Lookup in a JS-object-as-association-list (first binding wins). -/
def assocGet (d : List (String × String)) (k : String) : Option String :=
  (d.find? (fun p => p.1 == k)).map (fun p => p.2)

/-- Assignment `obj[k] = v` on a JS-object-as-association-list: replace the
binding when the key exists, append it otherwise. -/
def assocSet (d : List (String × String)) (k v : String) : List (String × String) :=
  if d.any (fun p => p.1 == k) then
    d.map (fun p => if p.1 == k then (k, v) else p)
  else d ++ [(k, v)]

/-- `getLastValue` (lines 108-112): `readOptions().defaults[type]`.  On a
malformed truthy store the `defaults` access yields `undefined` and the
indexing throws.  `type` is the tag with the `DEFAULT_TYPE` default already
applied. -/
def getLastValueE (type : String) (stored : Stored) : Except Unit (Option String) :=
  match readOptions stored with
  | .withDefaults d => .ok (assocGet d type)
  | .noDefaults => .error ()

/-- `setLastValue` (lines 114-119): read, update `defaults[type]`, store. -/
def setLastValueE (type : String) (value : String) (stored : Stored) : Except Unit Stored :=
  match readOptions stored with
  | .withDefaults d => .ok (.objWithDefaults (assocSet d type value))
  | .noDefaults => .error ()

/-! ## Filtering and the active value (lines 171-269) -/

/-- `getFiltered` (lines 255-269): with no `optionsAll` the empty list;
otherwise dedupe the type's bucket, then apply the filter prop with
include/exclude semantics on the (truthy) address value.  `type` carries the
`DEFAULT_TYPE` default. -/
def getFiltered (optionsAll : Option (String → List Opt)) (type : String)
    (filter : Option (List String)) (withExclude : Bool) : List Opt :=
  match optionsAll with
  | none => []
  | some oa =>
    (dedupe (oa type)).filter (fun o =>
      match filter with
      | none => true
      | some f =>
        match o.value with
        | none => false
        | some v =>
          decide (v ≠ "") && (if withExclude then !(f.contains v) else f.contains v))

/-- `hasValue` (lines 249-253): stringify the test value and look for an
option of the filtered bucket whose `value` strictly equals it.  `none`
models an `undefined` test, which the strict comparison against
string-or-null option values never matches. -/
def hasValue (filtered : List Opt) (test : Option String) : Bool :=
  match test with
  | none => false
  | some a => filtered.any (fun o => o.value == some a)

/-- `getLastOptionValue` (lines 241-247):
`available.length ? available[available.length - 1] : undefined`. -/
def getLastOptionValue (filtered : List Opt) : Option Opt :=
  if filtered.length != 0 then filtered[filtered.length - 1]? else none

/-- The argument of the `transformToAddress` call computing `actualValue`
in `render` (lines 173-179), verbatim from the nested conditional. -/
def actualValueArg (filtered : List Opt) (isDisabled : Bool)
    (defaultValue : Option String) (type : String) (lastValue : Option String) :
    Option String :=
  if isDisabled || (jsTruthyStr defaultValue &&
      (hasValue filtered defaultValue || type == "allPlus")) then
    defaultValue
  else if hasValue filtered lastValue then lastValue
  else (getLastOptionValue filtered).bind (fun o => o.value)

/-- `actualValue` of `render` (lines 173-179). -/
def actualValue (toAddr : ToAddr) (filtered : List Opt) (isDisabled : Bool)
    (defaultValue : Option String) (type : String) (lastValue : Option String) :
    Option String :=
  transformToAddress toAddr (actualValueArg filtered isDisabled defaultValue type lastValue)

/-- Membership of a (possibly absent) address in the filtered bucket, as the
specification phrases it: an option of the bucket carries exactly that
address; headers (`value = none`) and an absent test never count. -/
def presentIn (filtered : List Opt) (a : Option String) : Prop :=
  match a with
  | some s => ∃ o ∈ filtered, o.value = some s
  | none => False

instance (filtered : List Opt) (a : Option String) : Decidable (presentIn filtered a) :=
  match a with
  | some s => inferInstanceAs (Decidable (∃ o ∈ filtered, o.value = some s))
  | none => inferInstanceAs (Decidable False)

/-- Whether a default value is supplied, in the specification's sense: an
absent or empty default counts as not supplied (matching JS truthiness). -/
def suppliedDefault (defaultValue : Option String) : Prop :=
  match defaultValue with
  | some s => s ≠ ""
  | none => False

instance (defaultValue : Option String) : Decidable (suppliedDefault defaultValue) :=
  match defaultValue with
  | some s => inferInstanceAs (Decidable (s ≠ ""))
  | none => inferInstanceAs (Decidable False)

/-- The active-value rule exactly as the specification words it: if the
control is disabled, or a default value is supplied and that default is
present in the filtered bucket or the type tag is `allPlus`, the default is
used; else `lastValue` if present in the filtered bucket; else the address
of the LAST entry of the filtered bucket; the chosen candidate is then
address-normalised. -/
def specActiveValue (toAddr : ToAddr) (filtered : List Opt) (isDisabled : Bool)
    (defaultValue : Option String) (type : String) (lastValue : Option String) :
    Option String :=
  let candidate : Option String :=
    if isDisabled = true ∨ (suppliedDefault defaultValue ∧
        (presentIn filtered defaultValue ∨ type = "allPlus")) then
      defaultValue
    else if presentIn filtered lastValue then lastValue
    else
      match filtered.getLast? with
      | some o => o.value
      | none => none
  transformToAddress toAddr candidate

/-- `addActual` (lines 225-231): keep the filtered bucket when the active
value is already present, otherwise append a synthesised option for it.
`mkOption` abstracts `createOption` (lines 83-102), whose display name comes
from the opaque keyring registry. -/
def addActual (mkOption : String → Opt) (filtered : List Opt) (actual : String) :
    List Opt :=
  if hasValue filtered (some actual) then filtered
  else filtered ++ [mkOption actual]

/-- `actualOptions` of `render` (lines 180-186).  `createItemF` abstracts the
presentation-only `createItem` wrapper applied to an explicit `options` prop. -/
def actualOptions (toAddr : ToAddr) (mkOption : String → Opt)
    (createItemF : Opt → Opt) (options : Option (List Opt))
    (optionsAll : Option (String → List Opt)) (filter : Option (List String))
    (withExclude : Bool) (type : String) (isDisabled : Bool)
    (defaultValue lastValue : Option String) : List Opt :=
  let filtered := getFiltered optionsAll type filter withExclude
  let av := actualValue toAddr filtered isDisabled defaultValue type lastValue
  match options with
  | some os => dedupe (os.map createItemF)
  | none =>
    match av with
    | some s =>
      if s ≠ "" then (if isDisabled then [mkOption s] else addActual mkOption filtered s)
      else filtered
    | none => filtered

/-! ## Selection-change handlers (lines 271-293) -/

/-- `onChange` (lines 271-281) as a state transformer on the persisted
store: `!filter && setLastValue(type, address)` first (its `TypeError` on a
malformed store propagates), then the value reported to the `onChange` prop.
`isAddr` abstracts the opaque `isAddress` syntactic validity test. -/
def onChangeHandler (toAddr : ToAddr) (isAddr : String → Bool)
    (optionsAll : Option (String → List Opt)) (filter : Option (List String))
    (withExclude : Bool) (type : String) (stored : Stored) (address : String) :
    Except Unit (Stored × Option String) := do
  let stored' ← if filter = none then setLastValueE type address stored else pure stored
  let filtered := getFiltered optionsAll type filter withExclude
  let reported :=
    if decide (address ≠ "") &&
        (hasValue filtered (some address) || (type == "allPlus" && isAddr address)) then
      transformToAccountId toAddr address
    else none
  pure (stored', reported)

/-- `onChangeMulti` (lines 283-293): canonicalise each address and keep the
truthy results. -/
def onChangeMultiHandler (toAddr : ToAddr) (addresses : List String) : List String :=
  (addresses.map (transformToAccountId toAddr)).filterMap (fun a =>
    match a with
    | some s => if s = "" then none else some s
    | none => none)

/-! ## Derived state (lines 139-150) -/

/-- The `value` prop of the component: absent, a scalar, or an array. -/
inductive ValueProp where
  | noval
  | single (s : String)
  | arr (ss : List String)
deriving Repr, DecidableEq

/-- The normalised `value` slot of the component state: `undefined`, one
canonical address, or an elementwise-normalised array (whose entries may be
`undefined`). -/
inductive StateValue where
  | undef
  | single (s : String)
  | arr (ss : List (Option String))
deriving Repr, DecidableEq

/-- The `value` expression of `getDerivedStateFromProps` (lines 143-146):
`Array.isArray(value) ? value.map((v) => toAddress(v)) : (toAddress(value) || undefined)`.
The raw `toAddress` is used here, so a throw escapes to the surrounding catch. -/
def normalizeValueE (toAddr : ToAddr) : ValueProp → Except Unit StateValue
  | .arr ss => do
    let rs ← ss.mapM (fun v => toAddr (some v))
    pure (.arr rs)
  | .noval => do
    let r ← toAddr none
    pure (match r with
      | some s => if s ≠ "" then .single s else .undef
      | none => .undef)
  | .single s => do
    let r ← toAddr (some s)
    pure (match r with
      | some s' => if s' ≠ "" then .single s' else .undef
      | none => .undef)

/-- The state produced by `getDerivedStateFromProps`. -/
structure DerivedState where
  lastValue : Option String
  value : StateValue
deriving Repr, DecidableEq

/-- `getDerivedStateFromProps` (lines 139-150): compute
`lastValue || getLastValue(type)` and the normalised value inside a
`try`/`catch`; any throw yields `null` (no state change), here `none`. -/
def getDerivedStateFromProps (toAddr : ToAddr) (type : String) (value : ValueProp)
    (stateLastValue : Option String) (stored : Stored) : Option DerivedState :=
  match (do
      let lv ← if jsTruthyStr stateLastValue then pure stateLastValue
               else getLastValueE type stored
      let v ← normalizeValueE toAddr value
      pure (DerivedState.mk lv v) : Except Unit DerivedState) with
  | .ok st => some st
  | .error _ => none

/-! ## Search (lines 295-325) -/

/-- The initial matcher of `onSearch` (lines 299-304): keep options with a
truthy value whose lowercased name or value contains the lowercased query.
`incl` abstracts the JS `String.prototype.includes` test. -/
def initialMatches (incl : String → String → Bool) (filteredOptions : List Opt)
    (queryLower : String) : List Opt :=
  filteredOptions.filter (fun item =>
    match item.value with
    | none => false
    | some v =>
      decide (v ≠ "") && (incl item.name.toLower queryLower || incl v.toLower queryLower))

/-- The match list before the trailing post-filter, together with the
addresses registered as recent (lines 306-316).  `saveRecent` abstracts
`keyring.saveRecent(...).option` and `jsTrim` the JS `String.prototype.trim`
builtin. -/
def searchMatches (toAddr : ToAddr) (jsTrim : String → String)
    (incl : String → String → Bool)
    (saveRecent : String → Opt) (isInput : Bool) (filteredOptions : List Opt)
    (rawQuery : String) : List String × List Opt :=
  let query := jsTrim rawQuery
  let matches0 := initialMatches incl filteredOptions query.toLower
  if isInput && (matches0.length == 0) then
    match transformToAccountId toAddr query with
    | some a => if a ≠ "" then ([a], matches0 ++ [saveRecent a]) else ([], matches0)
    | none => ([], matches0)
  else ([], matches0)

/-- The trailing post-filter of `onSearch` (lines 318-324): keep an entry
when its value is neither null nor undefined, or when it is not last and the
next entry's value is truthy. -/
def searchKeep (ms : List Opt) (ie : Nat × Opt) : Bool :=
  !(ie.2.value == (none : Option String)) ||
    (!(ie.1 == ms.length - 1) &&
      (match ms[ie.1 + 1]? with
       | some ni => jsTruthyStr ni.value
       | none => false))

/-- The filter itself, over the enumerated match list. -/
def searchPostFilter (ms : List Opt) : List Opt :=
  ((ms.enum).filter (searchKeep ms)).map Prod.snd

/-- `onSearch` (lines 295-325): registered recent addresses paired with the
returned match sequence. -/
def onSearchHandler (toAddr : ToAddr) (jsTrim : String → String)
    (incl : String → String → Bool)
    (saveRecent : String → Opt) (isInput : Bool) (filteredOptions : List Opt)
    (rawQuery : String) : List String × List Opt :=
  let rm := searchMatches toAddr jsTrim incl saveRecent isInput filteredOptions rawQuery
  (rm.1, searchPostFilter rm.2)

/-! ## Concrete instances used to exercise the embedding -/

/-- A canonicaliser that accepts every input unchanged. -/
def okToAddr : ToAddr := fun v => .ok v

/-- A canonicaliser that throws on every input. -/
def badToAddr : ToAddr := fun _ => .error ()

/-- A synthesised option whose key, value and name are all the address,
the shape `createOption` gives an address unknown to the registry. -/
def mkOptC : String → Opt := fun a => Opt.mk a (some a) a

def headerOpt : Opt := Opt.mk "hdr" none "Header"

def optA : Opt := Opt.mk "A" (some "A") "alice"

def optB : Opt := Opt.mk "B" (some "B") "bob"

/-- A bucket holding a section header followed by one real option. -/
def sampleBucket : String → List Opt := fun _ => [headerOpt, optA]

/-- A bucket holding two real options and no header. -/
def abBucket : String → List Opt := fun _ => [optA, optB]

/-- An option sequence with a duplicated key. -/
def dupList : List Opt := [optA, Opt.mk "A" (some "A2") "alice2", optB]

/-! ## Properties of `dedupe` -/

theorem any_enumFrom_ne (p : Opt → Bool) :
    ∀ (acc : List Opt) (j n : Nat), j + acc.length ≤ n →
      ((acc.enumFrom j).any fun ie => ie.1 != n && p ie.2) = acc.any p := by
  intro acc
  induction acc with
  | nil => intro j n _; rfl
  | cons a l ih =>
    intro j n h
    have hj : (j != n) = true := by
      simp only [bne_iff_ne, ne_eq]
      simp only [List.length_cons] at h
      omega
    simp only [List.enumFrom_cons, List.any_cons, hj, Bool.true_and]
    rw [ih (j + 1) n (by simp only [List.length_cons] at h; omega)]

theorem foldl_dedupeStep_eq (l : List Opt) :
    ∀ (n : Nat) (acc : List Opt) (seen : List String),
      acc.length ≤ n →
      (∀ k, seen.any (fun s => s == k) = acc.any (fun e => e.key == k)) →
      (l.enumFrom n).foldl dedupeStep acc = acc ++ dedupeFrom seen l := by
  induction l with
  | nil => intro n acc seen _ _; simp [dedupeFrom]
  | cons o rest ih =>
    intro n acc seen hlen hseen
    simp only [List.enumFrom_cons, List.foldl_cons, dedupeFrom]
    have hstep : dedupeStep acc (n, o) =
        if seen.any (fun s => s == o.key) then acc else acc ++ [o] := by
      unfold dedupeStep
      have : (acc.enum).any (fun ie => ie.1 != n && ie.2.key == o.key) =
          acc.any (fun e => e.key == o.key) :=
        any_enumFrom_ne (fun e => e.key == o.key) acc 0 n (by omega)
      rw [this, hseen o.key]
    rw [hstep]
    by_cases hdup : seen.any (fun s => s == o.key) = true
    · rw [if_pos hdup, if_pos hdup]
      exact ih (n + 1) acc seen (by omega) hseen
    · rw [if_neg hdup, if_neg hdup]
      rw [ih (n + 1) (acc ++ [o]) (o.key :: seen)
        (by simp only [List.length_append, List.length_singleton]; omega)
        (by
          intro k
          simp only [List.any_cons, List.any_append, List.any_nil, Bool.or_false]
          rw [hseen k]
          exact Bool.or_comm _ _)]
      simp [List.append_assoc]

theorem dedupe_eq_dedupeFrom (options : List Opt) :
    dedupe options = dedupeFrom [] options := by
  have h := foldl_dedupeStep_eq options 0 [] [] (Nat.le_refl 0)
    (fun _ => rfl)
  simpa [dedupe, List.enum] using h

theorem dedupeFrom_sublist (seen : List String) (l : List Opt) :
    List.Sublist (dedupeFrom seen l) l := by
  induction l generalizing seen with
  | nil => simp [dedupeFrom]
  | cons o rest ih =>
    simp only [dedupeFrom]
    by_cases h : seen.any (fun s => s == o.key) = true
    · rw [if_pos h]
      exact (ih seen).cons o
    · rw [if_neg h]
      exact (ih (o.key :: seen)).cons₂ o

theorem dedupeFrom_fresh (seen : List String) (l : List Opt) (o : Opt)
    (ho : o ∈ dedupeFrom seen l) : seen.any (fun s => s == o.key) = false := by
  induction l generalizing seen with
  | nil => simp [dedupeFrom] at ho
  | cons a rest ih =>
    simp only [dedupeFrom] at ho
    by_cases h : seen.any (fun s => s == a.key) = true
    · rw [if_pos h] at ho
      exact ih seen ho
    · rw [if_neg h] at ho
      rcases List.mem_cons.mp ho with rfl | hmem
      · exact eq_false_of_ne_true h
      · have := ih (a.key :: seen) hmem
        simp only [List.any_cons, Bool.or_eq_false_iff] at this
        exact this.2

theorem dedupeFrom_keys_nodup (seen : List String) (l : List Opt) :
    ((dedupeFrom seen l).map (fun o => o.key)).Nodup := by
  induction l generalizing seen with
  | nil => simp [dedupeFrom]
  | cons a rest ih =>
    simp only [dedupeFrom]
    by_cases h : seen.any (fun s => s == a.key) = true
    · rw [if_pos h]; exact ih seen
    · rw [if_neg h]
      simp only [List.map_cons, List.nodup_cons]
      refine ⟨?_, ih (a.key :: seen)⟩
      intro hmem
      rcases List.mem_map.mp hmem with ⟨o, ho, hko⟩
      have h1 := dedupeFrom_fresh (a.key :: seen) rest o ho
      simp only [List.any_cons, Bool.or_eq_false_iff] at h1
      exact beq_eq_false_iff_ne.mp h1.1 hko.symm

theorem dedupeFrom_covers (l : List Opt) :
    ∀ (seen : List String) (k : String),
      seen.any (fun s => s == k) = false → k ∈ l.map (fun o => o.key) →
      k ∈ (dedupeFrom seen l).map (fun o => o.key) := by
  induction l with
  | nil => intro seen k _ h; simp at h
  | cons a rest ih =>
    intro seen k hfresh hk
    simp only [dedupeFrom]
    simp only [List.map_cons, List.mem_cons] at hk
    by_cases h : seen.any (fun s => s == a.key) = true
    · rw [if_pos h]
      rcases hk with rfl | hk
      · rw [hfresh] at h; exact absurd h (by simp)
      · exact ih seen k hfresh hk
    · rw [if_neg h]
      simp only [List.map_cons, List.mem_cons]
      rcases hk with rfl | hk
      · exact Or.inl rfl
      · by_cases hak : a.key = k
        · exact Or.inl hak.symm
        · refine Or.inr (ih (a.key :: seen) k ?_ hk)
          simp only [List.any_cons, Bool.or_eq_false_iff]
          exact ⟨beq_eq_false_iff_ne.mpr hak, hfresh⟩

theorem dedupeFrom_first_occurrence (l : List Opt) :
    ∀ (seen : List String) (o : Opt), o ∈ dedupeFrom seen l →
      l.find? (fun e => e.key == o.key) = some o := by
  induction l with
  | nil => intro seen o h; simp [dedupeFrom] at h
  | cons a rest ih =>
    intro seen o ho
    simp only [dedupeFrom] at ho
    by_cases h : seen.any (fun s => s == a.key) = true
    · rw [if_pos h] at ho
      have hfresh := dedupeFrom_fresh seen rest o ho
      have hne : (a.key == o.key) = false := by
        rw [beq_eq_false_iff_ne]
        intro heq
        rw [heq] at h
        rw [hfresh] at h
        exact absurd h (by simp)
      rw [List.find?_cons_of_neg _ (by simp [hne])]
      exact ih seen o ho
    · rw [if_neg h] at ho
      rcases List.mem_cons.mp ho with rfl | hmem
      · exact List.find?_cons_of_pos _ (by simp)
      · have hfresh := dedupeFrom_fresh (a.key :: seen) rest o hmem
        simp only [List.any_cons, Bool.or_eq_false_iff, beq_iff_eq] at hfresh
        rw [List.find?_cons_of_neg _ (by simp [hfresh.1])]
        exact ih (a.key :: seen) o hmem

/-! ## General bridging lemmas -/

theorem dedupe_keys_nodup (options : List Opt) :
    ((dedupe options).map (fun o => o.key)).Nodup := by
  rw [dedupe_eq_dedupeFrom]
  exact dedupeFrom_keys_nodup [] options

theorem dedupe_sublist (options : List Opt) :
    List.Sublist (dedupe options) options := by
  rw [dedupe_eq_dedupeFrom]
  exact dedupeFrom_sublist [] options

theorem dedupe_first_occurrence (options : List Opt) (o : Opt)
    (ho : o ∈ dedupe options) :
    options.find? (fun e => e.key == o.key) = some o := by
  rw [dedupe_eq_dedupeFrom] at ho
  exact dedupeFrom_first_occurrence options [] o ho

theorem dedupe_covers (options : List Opt) (o : Opt) (ho : o ∈ options) :
    ∃ o' ∈ dedupe options, o'.key = o.key := by
  rw [dedupe_eq_dedupeFrom]
  have hk : o.key ∈ (dedupeFrom [] options).map (fun o => o.key) :=
    dedupeFrom_covers options [] o.key rfl (List.mem_map.mpr ⟨o, ho, rfl⟩)
  rcases List.mem_map.mp hk with ⟨o', ho', hko⟩
  exact ⟨o', ho', hko⟩

theorem jsTruthyStr_iff (a : Option String) :
    jsTruthyStr a = true ↔ suppliedDefault a := by
  cases a <;> simp [jsTruthyStr, suppliedDefault, bne_iff_ne]

theorem hasValue_iff (filtered : List Opt) (a : Option String) :
    hasValue filtered a = true ↔ presentIn filtered a := by
  cases a with
  | none => simp [hasValue, presentIn]
  | some s => simp [hasValue, presentIn, List.any_eq_true, beq_iff_eq]

theorem getLastOptionValue_eq (l : List Opt) :
    getLastOptionValue l = l.getLast? := by
  unfold getLastOptionValue
  cases l with
  | nil => rfl
  | cons a t => rw [List.getLast?_eq_getElem?]; simp

theorem transformToAddress_ne_some_empty (toAddr : ToAddr) (v : Option String) :
    transformToAddress toAddr v ≠ some "" := by
  unfold transformToAddress
  cases h : toAddr v with
  | error e => simp
  | ok r =>
    cases r with
    | none => simp
    | some s => by_cases hs : s = "" <;> simp [hs]

theorem transformToAccountId_ne_some_empty (toAddr : ToAddr) (v : String) :
    transformToAccountId toAddr v ≠ some "" := by
  unfold transformToAccountId
  by_cases hv : v = ""
  · simp [hv]
  · rw [if_neg hv]
    cases h : transformToAddress toAddr (some v) with
    | none => simp
    | some a =>
      have ha := transformToAddress_ne_some_empty toAddr (some v)
      rw [h] at ha
      simpa using ha

theorem transformToAddress_error (toAddr : ToAddr) (v : Option String)
    (h : toAddr v = .error ()) : transformToAddress toAddr v = none := by
  simp [transformToAddress, h]

theorem transformToAccountId_error (toAddr : ToAddr) (s : String)
    (h : toAddr (some s) = .error ()) : transformToAccountId toAddr s = none := by
  by_cases hs : s = "" <;>
    simp [transformToAccountId, transformToAddress, hs, h]

theorem assocGet_map_set (k v : String) :
    ∀ d : List (String × String), d.any (fun p => p.1 == k) = true →
      assocGet (d.map (fun p => if p.1 == k then (k, v) else p)) k = some v := by
  intro d
  induction d with
  | nil => intro h; simp at h
  | cons p t ih =>
    intro h
    by_cases hp : (p.1 == k) = true
    · simp only [List.map_cons, if_pos hp]
      unfold assocGet
      rw [List.find?_cons_of_pos _ (by simp)]
      rfl
    · have ht : t.any (fun p => p.1 == k) = true := by
        simp only [List.any_cons, Bool.or_eq_true] at h
        exact h.resolve_left hp
      simp only [List.map_cons, if_neg hp]
      unfold assocGet at ih ⊢
      rw [List.find?_cons_of_neg _ (by simp [hp])]
      exact ih ht

theorem assocGet_assocSet_self (d : List (String × String)) (k v : String) :
    assocGet (assocSet d k v) k = some v := by
  unfold assocSet
  by_cases h : d.any (fun p => p.1 == k) = true
  · rw [if_pos h]
    exact assocGet_map_set k v d h
  · rw [if_neg h]
    unfold assocGet
    rw [List.find?_append]
    have hnone : d.find? (fun p => p.1 == k) = none := by
      rw [List.find?_eq_none]
      intro x hx
      simp only [Bool.not_eq_true]
      rcases Bool.eq_false_or_eq_true (x.1 == k) with htr | hf
      · exact absurd (List.any_eq_true.mpr ⟨x, hx, htr⟩) h
      · exact hf
    rw [hnone, Option.none_or, List.find?_cons_of_pos _ (by simp)]
    rfl

theorem getFiltered_keys_nodup (oa : Option (String → List Opt)) (type : String)
    (filter : Option (List String)) (wx : Bool) :
    ((getFiltered oa type filter wx).map (fun o => o.key)).Nodup := by
  unfold getFiltered
  cases oa with
  | none => simp
  | some m =>
    refine List.Nodup.sublist ?_ (dedupe_keys_nodup (m type))
    exact List.Sublist.map _ (List.filter_sublist _)

theorem searchPostFilter_of_all_some (ms : List Opt)
    (h : ∀ o ∈ ms, o.value ≠ none) : searchPostFilter ms = ms := by
  unfold searchPostFilter
  have hpred : ∀ ie ∈ ms.enum, searchKeep ms ie = true := by
    intro ie hie
    have h2 : ie.2 ∈ ms := List.getElem?_mem (List.mem_enum_iff_getElem?.mp hie)
    have h3 : (ie.2.value == (none : Option String)) = false :=
      beq_eq_false_iff_ne.mpr (h ie.2 h2)
    simp [searchKeep, h3]
  rw [List.filter_eq_self.mpr hpred]
  exact List.enumFrom_map_snd 0 ms

theorem initialMatches_value_truthy (incl : String → String → Bool)
    (fo : List Opt) (q : String) (o : Opt) (ho : o ∈ initialMatches incl fo q) :
    ∃ v, o.value = some v ∧ v ≠ "" := by
  unfold initialMatches at ho
  have hp := (List.mem_filter.mp ho).2
  cases hv : o.value with
  | none =>
    simp only [hv] at hp
    exact absurd hp (by simp)
  | some v =>
    simp only [hv, Bool.and_eq_true, decide_eq_true_iff] at hp
    exact ⟨v, rfl, hp.1⟩

theorem onChangeHandler_ok (toAddr : ToAddr) (isAddr : String → Bool)
    (oa : Option (String → List Opt)) (filter : Option (List String))
    (wx : Bool) (type : String) (stored : Stored) (address : String)
    (d : List (String × String)) (h : readOptions stored = .withDefaults d) :
    onChangeHandler toAddr isAddr oa filter wx type stored address =
      .ok ((if filter = none then Stored.objWithDefaults (assocSet d type address)
            else stored),
        (if decide (address ≠ "") &&
            (hasValue (getFiltered oa type filter wx) (some address) ||
              (type == "allPlus" && isAddr address)) then
          transformToAccountId toAddr address
        else none)) := by
  unfold onChangeHandler
  by_cases hf : filter = none
  · rw [if_pos hf, if_pos hf]
    simp [setLastValueE, h, Except.bind]
  · rw [if_neg hf, if_neg hf]
    simp only [Except.bind]
    rfl

theorem addActual_keys_nodup (mkOption : String → Opt) (filtered : List Opt)
    (s : String) (hnd : (filtered.map (fun o => o.key)).Nodup)
    (hmk : (mkOption s).key = s)
    (hfresh : hasValue filtered (some s) = false → ∀ o ∈ filtered, o.key ≠ s) :
    ((addActual mkOption filtered s).map (fun o => o.key)).Nodup := by
  unfold addActual
  by_cases h : hasValue filtered (some s) = true
  · rw [if_pos h]
    exact hnd
  · rw [if_neg h]
    rw [List.map_append, List.nodup_append]
    refine ⟨hnd, by simp, ?_⟩
    intro x hx hx2
    rcases List.mem_map.mp hx with ⟨o, ho, hk⟩
    simp only [List.map_cons, List.map_nil, List.mem_singleton] at hx2
    rw [hx2, hmk] at hk
    exact hfresh (eq_false_of_ne_true h) o ho hk

/-! ## The claims -/

/-- C1: for every update of the inputs, the active value is computed with the
spec's precedence — disabled or an accepted supplied default wins, else a
`lastValue` present in the filtered bucket, else the address of the LAST
entry of the filtered bucket — and the chosen candidate is then
address-normalised.  Stated as equality between the embedded `render`
computation and the rule as the specification words it. -/
theorem c1_active_value_precedence (toAddr : ToAddr) (filtered : List Opt)
    (isDisabled : Bool) (defaultValue : Option String) (type : String)
    (lastValue : Option String) :
    actualValue toAddr filtered isDisabled defaultValue type lastValue =
      specActiveValue toAddr filtered isDisabled defaultValue type lastValue := by
  unfold actualValue specActiveValue
  congr 1
  unfold actualValueArg
  have hcond : (isDisabled || (jsTruthyStr defaultValue &&
      (hasValue filtered defaultValue || type == "allPlus"))) = true ↔
      (isDisabled = true ∨ (suppliedDefault defaultValue ∧
        (presentIn filtered defaultValue ∨ type = "allPlus"))) := by
    simp [Bool.or_eq_true, Bool.and_eq_true, beq_iff_eq, jsTruthyStr_iff, hasValue_iff]
  by_cases hA : isDisabled = true ∨ (suppliedDefault defaultValue ∧
      (presentIn filtered defaultValue ∨ type = "allPlus"))
  · rw [if_pos (hcond.mpr hA), if_pos hA]
  · rw [if_neg (fun hb => hA (hcond.mp hb)), if_neg hA]
    by_cases hB : presentIn filtered lastValue
    · rw [if_pos ((hasValue_iff _ _).mpr hB), if_pos hB]
    · rw [if_neg (fun hb => hB ((hasValue_iff _ _).mp hb)), if_neg hB]
      rw [getLastOptionValue_eq]
      cases filtered.getLast? <;> rfl

/-- C3: `dedupe` retains exactly one entry per key — the first occurrence —
preserving relative order, and consequently the rendered option list never
contains two entries with the same key (for the synthesised-option branch
this uses the registry invariant that an option's key determines its
address). -/
theorem c3_dedupe_spec :
    (∀ options : List Opt, ((dedupe options).map (fun o => o.key)).Nodup)
    ∧ (∀ options : List Opt, List.Sublist (dedupe options) options)
    ∧ (∀ (options : List Opt) (o : Opt), o ∈ dedupe options →
        options.find? (fun e => e.key == o.key) = some o)
    ∧ (∀ (options : List Opt) (o : Opt), o ∈ options →
        ∃ o' ∈ dedupe options, o'.key = o.key)
    ∧ (∀ (toAddr : ToAddr) (mkOption : String → Opt) (createItemF : Opt → Opt)
        (options : Option (List Opt)) (optionsAll : Option (String → List Opt))
        (filter : Option (List String)) (withExclude : Bool) (type : String)
        (isDisabled : Bool) (defaultValue lastValue : Option String),
        (∀ x, (mkOption x).key = x) →
        (∀ o ∈ getFiltered optionsAll type filter withExclude, ∀ v,
          o.value = some v → o.key = v) →
        (∀ o ∈ getFiltered optionsAll type filter withExclude, o.value = none →
          ∀ s, actualValue toAddr (getFiltered optionsAll type filter withExclude)
            isDisabled defaultValue type lastValue = some s → o.key ≠ s) →
        ((actualOptions toAddr mkOption createItemF options optionsAll filter
          withExclude type isDisabled defaultValue lastValue).map
            (fun o => o.key)).Nodup) := by
  refine ⟨dedupe_keys_nodup, dedupe_sublist, dedupe_first_occurrence, dedupe_covers, ?_⟩
  intro toAddr mkOption createItemF options optionsAll filter wx type isDisabled dv lv
    hmk hkv hheader
  unfold actualOptions
  cases options with
  | some os => exact dedupe_keys_nodup _
  | none =>
    simp only
    cases hav : actualValue toAddr (getFiltered optionsAll type filter wx)
        isDisabled dv type lv with
    | none => exact getFiltered_keys_nodup optionsAll type filter wx
    | some s =>
      dsimp only
      by_cases hs : s ≠ ""
      · rw [if_pos hs]
        cases isDisabled with
        | true => simp
        | false =>
          simp only [Bool.false_eq_true, if_false]
          refine addActual_keys_nodup mkOption _ s
            (getFiltered_keys_nodup optionsAll type filter wx) (hmk s) ?_
          intro hHV o ho heq
          cases hv : o.value with
          | some v =>
            have hkey := hkv o ho v hv
            rw [heq] at hkey
            have hvs : o.value = some s := by rw [hv, hkey]
            have htrue : hasValue (getFiltered optionsAll type filter wx)
                (some s) = true := by
              unfold hasValue
              exact List.any_eq_true.mpr ⟨o, ho, by simp [hvs]⟩
            rw [hHV] at htrue
            exact absurd htrue (by simp)
          | none => exact hheader o ho hv s hav heq
      · rw [if_neg hs]
        exact getFiltered_keys_nodup optionsAll type filter wx

/-- Witness for C3: the dedupe properties and the rendered-options key
uniqueness evaluated at concrete option sequences. -/
theorem c3_dedupe_spec_witness :
    ((dedupe dupList).map (fun o => o.key)).Nodup
    ∧ List.Sublist (dedupe dupList) dupList
    ∧ dupList.find? (fun e => e.key == optA.key) = some optA
    ∧ (∃ o' ∈ dedupe dupList, o'.key = optB.key)
    ∧ ((actualOptions okToAddr mkOptC id none (some abBucket) none false "all"
        false (some "C") none).map (fun o => o.key)).Nodup := by
  have he : getFiltered (some abBucket) "all" none false = [optA, optB] := by decide
  refine ⟨c3_dedupe_spec.1 dupList, c3_dedupe_spec.2.1 dupList,
    c3_dedupe_spec.2.2.1 dupList optA (by decide),
    c3_dedupe_spec.2.2.2.1 dupList optB (by decide),
    c3_dedupe_spec.2.2.2.2 okToAddr mkOptC id none (some abBucket) none false "all"
      false (some "C") none (fun _ => rfl) ?_ ?_⟩
  · intro o ho v hv
    rw [he] at ho
    rcases List.mem_cons.mp ho with rfl | ho2
    · simpa [optA] using hv
    · rcases List.mem_cons.mp ho2 with rfl | ho3
      · simpa [optB] using hv
      · cases ho3
  · intro o ho hv
    rw [he] at ho
    rcases List.mem_cons.mp ho with rfl | ho2
    · simp [optA] at hv
    · rcases List.mem_cons.mp ho2 with rfl | ho3
      · simp [optB] at hv
      · cases ho3

/-- C4 counterexample: with a filter present, a section header (null value)
IS removed by the filter step, contrary to the claim that headers are never
removed even when a filter is present. -/
theorem c4_counterexample :
    headerOpt ∈ dedupe (sampleBucket "all")
    ∧ headerOpt ∉ getFiltered (some sampleBucket) "all" (some ["A"]) false := by
  decide

/-- C4 (amended): the filtered-bucket computation deduplicates the type's
bucket by key and then filters; with no filter every deduplicated option
(headers included) is kept; with a filter present an option is kept exactly
when it carries a truthy address value passing the include/exclude test — so
null-valued headers are removed whenever a filter is present — and a
`hasValue` membership check on an address is satisfied exactly by an option
carrying that address, never by a header. -/
theorem c4_filtered_bucket_amended :
    (∀ (type : String) (filter : Option (List String)) (wx : Bool),
        getFiltered none type filter wx = [])
    ∧ (∀ (oa : String → List Opt) (type : String) (wx : Bool),
        getFiltered (some oa) type none wx = dedupe (oa type))
    ∧ (∀ (oa : String → List Opt) (type : String) (fl : List String) (wx : Bool)
        (o : Opt), o ∈ getFiltered (some oa) type (some fl) wx → o.value ≠ none)
    ∧ (∀ (oa : String → List Opt) (type : String) (fl : List String) (o : Opt),
        o ∈ getFiltered (some oa) type (some fl) true ↔
          o ∈ dedupe (oa type) ∧ ∃ v, o.value = some v ∧ v ≠ "" ∧ v ∉ fl)
    ∧ (∀ (oa : String → List Opt) (type : String) (fl : List String) (o : Opt),
        o ∈ getFiltered (some oa) type (some fl) false ↔
          o ∈ dedupe (oa type) ∧ ∃ v, o.value = some v ∧ v ≠ "" ∧ v ∈ fl)
    ∧ (∀ (filtered : List Opt) (a : String),
        hasValue filtered (some a) = true ↔ ∃ o ∈ filtered, o.value = some a)
    ∧ (∀ filtered : List Opt, hasValue filtered none = false) := by
  refine ⟨fun _ _ _ => rfl, ?_, ?_, ?_, ?_, ?_, fun _ => rfl⟩
  · intro oa type wx
    simp [getFiltered]
  · intro oa type fl wx o ho
    have hp := (List.mem_filter.mp ho).2
    cases hv : o.value with
    | none => simp [hv] at hp
    | some v => simp [hv]
  · intro oa type fl o
    unfold getFiltered
    rw [List.mem_filter]
    constructor
    · rintro ⟨hmem, hp⟩
      refine ⟨hmem, ?_⟩
      cases hv : o.value with
      | none => simp [hv] at hp
      | some v =>
        simp only [hv, Bool.and_eq_true, decide_eq_true_iff, if_true] at hp
        refine ⟨v, rfl, hp.1, ?_⟩
        have h2 := hp.2
        simp [List.contains] at h2
        exact h2
    · rintro ⟨hmem, v, hv, hne, hnotin⟩
      refine ⟨hmem, ?_⟩
      simp only [hv, Bool.and_eq_true, decide_eq_true_iff, if_true]
      refine ⟨hne, ?_⟩
      simp [List.contains, hnotin]
  · intro oa type fl o
    unfold getFiltered
    rw [List.mem_filter]
    constructor
    · rintro ⟨hmem, hp⟩
      refine ⟨hmem, ?_⟩
      cases hv : o.value with
      | none => simp [hv] at hp
      | some v =>
        simp only [hv, Bool.and_eq_true, decide_eq_true_iff, if_false] at hp
        refine ⟨v, rfl, hp.1, ?_⟩
        have h2 := hp.2
        simp [List.contains] at h2
        exact h2
    · rintro ⟨hmem, v, hv, hne, hin⟩
      refine ⟨hmem, ?_⟩
      simp only [hv, Bool.and_eq_true, decide_eq_true_iff, if_false]
      refine ⟨hne, ?_⟩
      simp [List.contains, hin]
  · intro filtered a
    simpa [presentIn] using hasValue_iff filtered (some a)

/-- Witness for C4 (amended): the membership characterisations evaluated at
a concrete bucket with a header, a filter and an exclusion filter. -/
theorem c4_filtered_bucket_amended_witness :
    getFiltered (some sampleBucket) "all" none false = dedupe (sampleBucket "all")
    ∧ optA ∈ getFiltered (some sampleBucket) "all" (some ["A"]) false
    ∧ optA.value ≠ none
    ∧ (hasValue [headerOpt, optA] (some "A") = true) := by
  refine ⟨c4_filtered_bucket_amended.2.1 sampleBucket "all" false,
    (c4_filtered_bucket_amended.2.2.2.2.1 sampleBucket "all" ["A"] optA).mpr
      ⟨by decide, "A", rfl, by decide, by decide⟩,
    c4_filtered_bucket_amended.2.2.1 sampleBucket "all" ["A"] false optA ?_,
    (c4_filtered_bucket_amended.2.2.2.2.2.1 [headerOpt, optA] "A").mpr
      ⟨optA, by decide, rfl⟩⟩
  exact (c4_filtered_bucket_amended.2.2.2.2.1 sampleBucket "all" ["A"] optA).mpr
    ⟨by decide, "A", rfl, by decide, by decide⟩

/-- C2: on a single-select change the address is persisted as the type tag's
last value if and only if no filter prop is set, and the caller is handed the
canonicalised address exactly when the address is non-empty and either
present in the filtered bucket or the type tag is `allPlus` and the address
is syntactically valid; in every other case the caller is handed null. -/
theorem c2_on_change_contract (toAddr : ToAddr) (isAddr : String → Bool)
    (oa : Option (String → List Opt)) (filter : Option (List String))
    (wx : Bool) (type : String) (stored : Stored) (address : String)
    (d : List (String × String)) (h : readOptions stored = .withDefaults d) :
    onChangeHandler toAddr isAddr oa filter wx type stored address =
      .ok ((if filter = none then Stored.objWithDefaults (assocSet d type address)
            else stored),
        (if address ≠ "" ∧ (presentIn (getFiltered oa type filter wx) (some address)
              ∨ (type = "allPlus" ∧ isAddr address = true)) then
          transformToAccountId toAddr address
        else none)) := by
  have hiff : (decide (address ≠ "") &&
      (hasValue (getFiltered oa type filter wx) (some address) ||
        (type == "allPlus" && isAddr address))) = true ↔
      (address ≠ "" ∧ (presentIn (getFiltered oa type filter wx) (some address)
        ∨ (type = "allPlus" ∧ isAddr address = true))) := by
    simp [Bool.and_eq_true, Bool.or_eq_true, decide_eq_true_iff, beq_iff_eq,
      hasValue_iff]
  have hrep : (if decide (address ≠ "") &&
      (hasValue (getFiltered oa type filter wx) (some address) ||
        (type == "allPlus" && isAddr address)) then
        transformToAccountId toAddr address else none) =
      (if address ≠ "" ∧ (presentIn (getFiltered oa type filter wx) (some address)
          ∨ (type = "allPlus" ∧ isAddr address = true)) then
        transformToAccountId toAddr address else none) := by
    by_cases hc : address ≠ "" ∧ (presentIn (getFiltered oa type filter wx)
        (some address) ∨ (type = "allPlus" ∧ isAddr address = true))
    · rw [if_pos (hiff.mpr hc), if_pos hc]
    · rw [if_neg (fun hb => hc (hiff.mp hb)), if_neg hc]
  rw [onChangeHandler_ok toAddr isAddr oa filter wx type stored address d h, hrep]

/-- Witness for C2: selecting "A" with no filter from a bucket containing it
persists "A" under the "all" tag and reports the canonical address. -/
theorem c2_on_change_contract_witness :
    onChangeHandler okToAddr (fun _ => true) (some sampleBucket) none false "all"
      Stored.absent "A" =
      .ok (Stored.objWithDefaults (assocSet [] "all" "A"), some "A") := by
  rw [c2_on_change_contract okToAddr (fun _ => true) (some sampleBucket) none false
    "all" Stored.absent "A" [] rfl]
  have hc : ("A" : String) ≠ "" ∧
      (presentIn (getFiltered (some sampleBucket) "all" none false) (some "A")
        ∨ (("all" : String) = "allPlus" ∧ (fun (_ : String) => true) "A" = true)) :=
    ⟨by decide, Or.inl (by decide)⟩
  rw [if_pos rfl, if_pos hc]
  rfl

/-- C5: a search whose query matches no existing option by name or address
synthesises exactly one match — the canonicalised query — and registers it
as recent when input-as-address mode is on; with the mode off it yields an
empty match sequence regardless of canonicalisation. -/
theorem c5_search_synthesis (toAddr : ToAddr) (jsTrim : String → String)
    (incl : String → String → Bool)
    (saveRecent : String → Opt) (filteredOptions : List Opt) (rawQuery : String)
    (hm : initialMatches incl filteredOptions (jsTrim rawQuery).toLower = [])
    (hsr : ∀ a, (saveRecent a).value = some a) :
    (∀ a, transformToAccountId toAddr (jsTrim rawQuery) = some a →
      onSearchHandler toAddr jsTrim incl saveRecent true filteredOptions rawQuery =
        ([a], [saveRecent a]))
    ∧ onSearchHandler toAddr jsTrim incl saveRecent false filteredOptions rawQuery =
        ([], []) := by
  constructor
  · intro a ha
    have hane : a ≠ "" := by
      intro hc
      rw [hc] at ha
      exact transformToAccountId_ne_some_empty toAddr (jsTrim rawQuery) ha
    have hpost : searchPostFilter [saveRecent a] = [saveRecent a] := by
      refine searchPostFilter_of_all_some _ ?_
      intro o ho
      rw [List.mem_singleton] at ho
      rw [ho, hsr a]
      simp
    simp only [onSearchHandler, searchMatches, hm, ha, List.length_nil,
      List.nil_append]
    simp [hane, hpost]
  · simp only [onSearchHandler, searchMatches, hm]
    simp [searchPostFilter]

/-- Witness for C5 at a concrete query and empty option list. -/
theorem c5_search_synthesis_witness :
    onSearchHandler okToAddr id (fun _ _ => false) mkOptC true [] "addr" =
      (["addr"], [mkOptC "addr"])
    ∧ onSearchHandler okToAddr id (fun _ _ => false) mkOptC false [] "addr" =
      ([], []) :=
  ⟨(c5_search_synthesis okToAddr id (fun _ _ => false) mkOptC [] "addr" rfl
      (fun _ => rfl)).1 "addr" rfl,
   (c5_search_synthesis okToAddr id (fun _ _ => false) mkOptC [] "addr" rfl
      (fun _ => rfl)).2⟩

/-- C10: every entry of the sequence the search transform returns carries a
non-null, non-empty address value, so the trailing header-dropping
post-filter removes nothing — it is the identity on the match sequence. -/
theorem c10_search_matches_truthy (toAddr : ToAddr) (jsTrim : String → String)
    (incl : String → String → Bool)
    (saveRecent : String → Opt) (isInput : Bool) (filteredOptions : List Opt)
    (rawQuery : String) (hsr : ∀ a, (saveRecent a).value = some a) :
    (∀ o ∈ (searchMatches toAddr jsTrim incl saveRecent isInput filteredOptions rawQuery).2,
      ∃ v, o.value = some v ∧ v ≠ "")
    ∧ searchPostFilter
        (searchMatches toAddr jsTrim incl saveRecent isInput filteredOptions rawQuery).2 =
      (searchMatches toAddr jsTrim incl saveRecent isInput filteredOptions rawQuery).2
    ∧ (onSearchHandler toAddr jsTrim incl saveRecent isInput filteredOptions rawQuery).2 =
      (searchMatches toAddr jsTrim incl saveRecent isInput filteredOptions rawQuery).2 := by
  have hmem : ∀ o ∈ (searchMatches toAddr jsTrim incl saveRecent isInput filteredOptions
      rawQuery).2, ∃ v, o.value = some v ∧ v ≠ "" := by
    intro o ho
    simp only [searchMatches] at ho
    by_cases hcond : (isInput && ((initialMatches incl filteredOptions
        (jsTrim rawQuery).toLower).length == 0)) = true
    · rw [if_pos hcond] at ho
      cases hta : transformToAccountId toAddr (jsTrim rawQuery) with
      | none =>
        simp only [hta] at ho
        exact initialMatches_value_truthy incl filteredOptions
          (jsTrim rawQuery).toLower o ho
      | some a =>
        simp only [hta] at ho
        by_cases hane : a ≠ ""
        · rw [if_pos hane] at ho
          simp only at ho
          rcases List.mem_append.mp ho with h1 | h1
          · exact initialMatches_value_truthy incl filteredOptions
              (jsTrim rawQuery).toLower o h1
          · rw [List.mem_singleton] at h1
            subst h1
            exact ⟨a, hsr a, hane⟩
        · rw [if_neg hane] at ho
          simp only at ho
          exact initialMatches_value_truthy incl filteredOptions
            (jsTrim rawQuery).toLower o ho
    · rw [if_neg hcond] at ho
      simp only at ho
      exact initialMatches_value_truthy incl filteredOptions
        (jsTrim rawQuery).toLower o ho
  have hid : searchPostFilter
      (searchMatches toAddr jsTrim incl saveRecent isInput filteredOptions rawQuery).2 =
      (searchMatches toAddr jsTrim incl saveRecent isInput filteredOptions rawQuery).2 := by
    refine searchPostFilter_of_all_some _ ?_
    intro o ho
    rcases hmem o ho with ⟨v, hv, _⟩
    rw [hv]
    simp
  exact ⟨hmem, hid, hid⟩

/-- Witness for C10 at a concrete query: the synthesised match is kept
untouched by the post-filter. -/
theorem c10_search_matches_truthy_witness :
    (∀ o ∈ (searchMatches okToAddr id (fun _ _ => false) mkOptC true [] "addr").2,
      ∃ v, o.value = some v ∧ v ≠ "")
    ∧ searchPostFilter
        (searchMatches okToAddr id (fun _ _ => false) mkOptC true [] "addr").2 =
      (searchMatches okToAddr id (fun _ _ => false) mkOptC true [] "addr").2
    ∧ (onSearchHandler okToAddr id (fun _ _ => false) mkOptC true [] "addr").2 =
      (searchMatches okToAddr id (fun _ _ => false) mkOptC true [] "addr").2 :=
  c10_search_matches_truthy okToAddr id (fun _ _ => false) mkOptC true [] "addr"
    (fun _ => rfl)

/-- C7 counterexample: disabled with a supplied default absent from the
bucket renders a SINGLE synthesised option, not the bucket entries plus one
synthesised entry as the claim states. -/
theorem c7_counterexample :
    actualOptions okToAddr mkOptC id none (some abBucket) none false "all" true
      (some "C") none = [Opt.mk "C" (some "C") "C"]
    ∧ actualOptions okToAddr mkOptC id none (some abBucket) none false "all" true
        (some "C") none ≠
      getFiltered (some abBucket) "all" none false ++ [mkOptC "C"] := by
  decide

/-- C7 (amended): when the control is disabled and a non-empty default value
is supplied that canonicalises to itself and is absent from the filtered
bucket, the rendered option list is exactly one synthesised option for the
default value, and the active value equals that default value. -/
theorem c7_disabled_default_amended (toAddr : ToAddr) (mkOption : String → Opt)
    (createItemF : Opt → Opt) (oa : Option (String → List Opt))
    (filter : Option (List String)) (wx : Bool) (type : String) (dv : String)
    (lv : Option String)
    (h1 : toAddr (some dv) = .ok (some dv)) (h2 : dv ≠ "")
    (_h3 : hasValue (getFiltered oa type filter wx) (some dv) = false) :
    actualOptions toAddr mkOption createItemF none oa filter wx type true
      (some dv) lv = [mkOption dv]
    ∧ actualValue toAddr (getFiltered oa type filter wx) true (some dv) type lv =
      some dv := by
  have hav : actualValue toAddr (getFiltered oa type filter wx) true (some dv)
      type lv = some dv := by
    unfold actualValue actualValueArg
    rw [if_pos (by simp)]
    unfold transformToAddress
    simp only [h1]
    rw [if_neg h2]
  refine ⟨?_, hav⟩
  unfold actualOptions
  simp only [hav]
  rw [if_pos h2]
  rfl

/-- Witness for C7 (amended) at a concrete bucket and default. -/
theorem c7_disabled_default_amended_witness :
    actualOptions okToAddr mkOptC id none (some abBucket) none false "all" true
      (some "C") none = [mkOptC "C"]
    ∧ actualValue okToAddr (getFiltered (some abBucket) "all" none false) true
        (some "C") "all" none = some "C" :=
  c7_disabled_default_amended okToAddr mkOptC id (some abBucket) none false "all"
    "C" none rfl (by decide) (by decide)

/-- C6 counterexample: the store holds "B" for tag "all" and the component
already resolved lastValue "B"; selecting "A" with no filter persists "A",
yet the next resolution cycle keeps the resolver's lastValue at "B", not
"A". -/
theorem c6_counterexample :
    onChangeHandler okToAddr (fun _ => true) none none false "all"
      (Stored.objWithDefaults [("all", "B")]) "A" =
      .ok (Stored.objWithDefaults [("all", "A")], none)
    ∧ getDerivedStateFromProps okToAddr "all" ValueProp.noval (some "B")
        (Stored.objWithDefaults [("all", "A")]) =
      some (DerivedState.mk (some "B") StateValue.undef)
    ∧ (some "B" : Option String) ≠ some "A" := by
  exact ⟨rfl, rfl, by decide⟩

/-- C6 (amended): selecting a with no active filter persists a for the tag,
the persisted store then answers a on every read — also after filtered
selections, which leave the store untouched — and the next resolution cycle
resolves lastValue to a provided no truthy lastValue was already resolved in
the component's lifetime. -/
theorem c6_last_value_persistence_amended (toAddr : ToAddr) (isAddr : String → Bool)
    (oa : Option (String → List Opt)) (wx : Bool) (t : String) (stored : Stored)
    (d : List (String × String)) (addr : String) (vp : ValueProp) (sv : StateValue)
    (stateLast : Option String)
    (h : readOptions stored = .withDefaults d)
    (hn : normalizeValueE toAddr vp = .ok sv)
    (hl : jsTruthyStr stateLast = false) :
    (∃ rep, onChangeHandler toAddr isAddr oa none wx t stored addr =
        .ok (Stored.objWithDefaults (assocSet d t addr), rep))
    ∧ getLastValueE t (Stored.objWithDefaults (assocSet d t addr)) = .ok (some addr)
    ∧ (∀ (fs : List String) (isAddr₂ : String → Bool)
        (oa₂ : Option (String → List Opt)) (wx₂ : Bool) (addr₂ : String),
        ∃ rep₂, onChangeHandler toAddr isAddr₂ oa₂ (some fs) wx₂ t
          (Stored.objWithDefaults (assocSet d t addr)) addr₂ =
          .ok (Stored.objWithDefaults (assocSet d t addr), rep₂))
    ∧ getDerivedStateFromProps toAddr t vp stateLast
        (Stored.objWithDefaults (assocSet d t addr)) =
      some (DerivedState.mk (some addr) sv) := by
  have hget : getLastValueE t (Stored.objWithDefaults (assocSet d t addr)) =
      .ok (some addr) := by
    show Except.ok (assocGet (assocSet d t addr) t) = Except.ok (some addr)
    rw [assocGet_assocSet_self]
  refine ⟨?_, hget, ?_, ?_⟩
  · have h1 := onChangeHandler_ok toAddr isAddr oa none wx t stored addr d h
    rw [if_pos rfl] at h1
    exact ⟨_, h1⟩
  · intro fs isAddr₂ oa₂ wx₂ addr₂
    have h2 := onChangeHandler_ok toAddr isAddr₂ oa₂ (some fs) wx₂ t
      (Stored.objWithDefaults (assocSet d t addr)) addr₂ (assocSet d t addr) rfl
    rw [if_neg (by simp)] at h2
    exact ⟨_, h2⟩
  · unfold getDerivedStateFromProps
    simp only [hl, Bool.false_eq_true, if_false, hget, hn, Except.bind]
    rfl

/-- Witness for C6 (amended): set-then-get round trip and derived state at
concrete inputs. -/
theorem c6_last_value_persistence_amended_witness :
    getLastValueE "all" (Stored.objWithDefaults (assocSet [] "all" "A")) =
      .ok (some "A")
    ∧ getDerivedStateFromProps okToAddr "all" ValueProp.noval none
        (Stored.objWithDefaults (assocSet [] "all" "A")) =
      some (DerivedState.mk (some "A") StateValue.undef) :=
  ⟨(c6_last_value_persistence_amended okToAddr (fun _ => true) none false "all"
      Stored.absent [] "A" ValueProp.noval StateValue.undef none rfl rfl rfl).2.1,
   (c6_last_value_persistence_amended okToAddr (fun _ => true) none false "all"
      Stored.absent [] "A" ValueProp.noval StateValue.undef none rfl rfl rfl).2.2.2⟩

theorem onChangeMulti_all_error (toAddr : ToAddr) :
    ∀ addrs : List String, (∀ a ∈ addrs, toAddr (some a) = .error ()) →
      onChangeMultiHandler toAddr addrs = [] := by
  intro addrs
  induction addrs with
  | nil => intro _; rfl
  | cons a t ih =>
    intro h
    unfold onChangeMultiHandler at ih ⊢
    simp only [List.map_cons, List.filterMap_cons,
      transformToAccountId_error toAddr a (h a (List.mem_cons_self a t))]
    exact ih (fun x hx => h x (List.mem_cons_of_mem a hx))

/-- C8: address-canonicalisation failure never propagates: it degrades to an
absent value at every call site — the transform helpers return null, the
derived-state computation returns no-update, the selection-change handler
reports null (still persisting), the multi-select handler drops the failing
entries, and the search handler synthesises nothing. -/
theorem c8_canonicalisation_total (toAddr : ToAddr) :
    (∀ v, toAddr v = .error () → transformToAddress toAddr v = none)
    ∧ (∀ s, toAddr (some s) = .error () → transformToAccountId toAddr s = none)
    ∧ (∀ (type : String) (vp : ValueProp) (stateLast : Option String)
        (stored : Stored), normalizeValueE toAddr vp = .error () →
        getDerivedStateFromProps toAddr type vp stateLast stored = none)
    ∧ (∀ (isAddr : String → Bool) (oa : Option (String → List Opt))
        (filter : Option (List String)) (wx : Bool) (type : String)
        (stored : Stored) (address : String) (d : List (String × String)),
        readOptions stored = .withDefaults d → toAddr (some address) = .error () →
        onChangeHandler toAddr isAddr oa filter wx type stored address =
          .ok ((if filter = none then Stored.objWithDefaults (assocSet d type address)
                else stored), none))
    ∧ (∀ addrs : List String, (∀ a ∈ addrs, toAddr (some a) = .error ()) →
        onChangeMultiHandler toAddr addrs = [])
    ∧ (∀ (jsTrim : String → String) (incl : String → String → Bool)
        (saveRecent : String → Opt) (isInput : Bool) (fo : List Opt) (q : String),
        toAddr (some (jsTrim q)) = .error () →
        onSearchHandler toAddr jsTrim incl saveRecent isInput fo q =
          ([], searchPostFilter (initialMatches incl fo (jsTrim q).toLower))) := by
  refine ⟨transformToAddress_error toAddr, transformToAccountId_error toAddr,
    ?_, ?_, onChangeMulti_all_error toAddr, ?_⟩
  · intro type vp stateLast stored h
    unfold getDerivedStateFromProps
    by_cases hb : jsTruthyStr stateLast = true
    · simp [hb, h, Except.map]
    · simp only [hb, if_false]
      cases hlv : getLastValueE type stored with
      | error e => simp only [hlv, h]; rfl
      | ok lv => simp only [hlv, h]; rfl
  · intro isAddr oa filter wx type stored address d h1 h2
    rw [onChangeHandler_ok toAddr isAddr oa filter wx type stored address d h1,
      transformToAccountId_error toAddr address h2, ite_self]
  · intro jsTrim incl saveRecent isInput fo q h
    by_cases hc : (isInput &&
        ((initialMatches incl fo (jsTrim q).toLower).length == 0)) = true
    · simp [onSearchHandler, searchMatches, hc,
        transformToAccountId_error toAddr (jsTrim q) h]
    · simp [onSearchHandler, searchMatches, hc]

/-- Witness for C8 at a canonicaliser that throws on every input. -/
theorem c8_canonicalisation_total_witness :
    transformToAddress badToAddr (some "x") = none
    ∧ transformToAccountId badToAddr "x" = none
    ∧ getDerivedStateFromProps badToAddr "all" (ValueProp.single "x") none
        Stored.absent = none
    ∧ onChangeHandler badToAddr (fun _ => true) none none false "all"
        Stored.absent "x" =
      .ok (Stored.objWithDefaults (assocSet [] "all" "x"), none)
    ∧ onChangeMultiHandler badToAddr ["x"] = []
    ∧ onSearchHandler badToAddr id (fun _ _ => false) mkOptC true [] "x" =
      ([], searchPostFilter (initialMatches (fun _ _ => false) [] "x".toLower)) :=
  ⟨(c8_canonicalisation_total badToAddr).1 (some "x") rfl,
   (c8_canonicalisation_total badToAddr).2.1 "x" rfl,
   (c8_canonicalisation_total badToAddr).2.2.1 "all" (ValueProp.single "x") none
     Stored.absent rfl,
   (c8_canonicalisation_total badToAddr).2.2.2.1 (fun _ => true) none none false
     "all" Stored.absent "x" [] rfl rfl,
   (c8_canonicalisation_total badToAddr).2.2.2.2.1 ["x"] (fun _ _ => rfl),
   (c8_canonicalisation_total badToAddr).2.2.2.2.2 id (fun _ _ => false) mkOptC
     true [] "x" rfl⟩

/-- C9 counterexample: a truthy malformed stored value (no `defaults`
object) makes reading the last value raise instead of being treated as empty
defaults. -/
theorem c9_counterexample : getLastValueE "all" Stored.mal = Except.error () := rfl

/-- C9 (amended): an absent or falsy stored value is treated as empty
defaults by reading and writing, and a stored `defaults` object is used as
stored; but a truthy stored value without a `defaults` object makes both
reading and writing the last value raise, rather than being treated as empty
defaults. -/
theorem c9_store_defaults_amended :
    readOptions Stored.absent = OptionsObj.withDefaults []
    ∧ readOptions Stored.falsyVal = OptionsObj.withDefaults []
    ∧ (∀ d, readOptions (Stored.objWithDefaults d) = OptionsObj.withDefaults d)
    ∧ (∀ t, getLastValueE t Stored.absent = .ok none)
    ∧ (∀ t, getLastValueE t Stored.falsyVal = .ok none)
    ∧ (∀ t d, getLastValueE t (Stored.objWithDefaults d) = .ok (assocGet d t))
    ∧ (∀ t v, setLastValueE t v Stored.absent =
        .ok (Stored.objWithDefaults (assocSet [] t v)))
    ∧ (∀ t v d, setLastValueE t v (Stored.objWithDefaults d) =
        .ok (Stored.objWithDefaults (assocSet d t v)))
    ∧ (∀ t, getLastValueE t Stored.mal = .error ())
    ∧ (∀ t v, setLastValueE t v Stored.mal = .error ()) :=
  ⟨rfl, rfl, fun _ => rfl, fun _ => rfl, fun _ => rfl, fun _ _ => rfl,
   fun _ _ => rfl, fun _ _ _ => rfl, fun _ => rfl, fun _ _ => rfl⟩

end InputAddressSpec
